import Mathlib

/-!
# go-livecoin: request executor and envelope probe

A shallow embedding of `client.go` and `livecoin.go`.

* Go strings are byte sequences (`GoString`); string literals of the source are
  written `str "..."`.
* The Go standard library functions that the executor composes are embedded
  where their behaviour is part of what is verified (`net/url` query escaping,
  `url.Values`, `http.Header`, `http.NewRequest` method validation,
  `encoding/hex`).  `url.Parse`, `URL.String`, HMAC-SHA256, the HTTP round trip
  with its timer race and `encoding/json` are supplied by an environment `Env`.
* A Go function that may panic returns `Run`.
-/

namespace Livecoin

/-! ## Byte strings -/

/-- One byte of a Go string. -/
abbrev Byte := Fin 256

/-- A Go `string` (equally a `[]byte`): a finite sequence of bytes. -/
abbrev GoString := List Byte

/-- UTF-8 encoding of one code point, as the Go compiler stores a literal. -/
def utf8Bytes (c : Char) : GoString :=
  let n := c.toNat
  if n < 0x80 then [Fin.ofNat n]
  else if n < 0x800 then [Fin.ofNat (0xC0 + n / 0x40), Fin.ofNat (0x80 + n % 0x40)]
  else if n < 0x10000 then
    [Fin.ofNat (0xE0 + n / 0x1000), Fin.ofNat (0x80 + n / 0x40 % 0x40), Fin.ofNat (0x80 + n % 0x40)]
  else
    [Fin.ofNat (0xF0 + n / 0x40000), Fin.ofNat (0x80 + n / 0x1000 % 0x40),
     Fin.ofNat (0x80 + n / 0x40 % 0x40), Fin.ofNat (0x80 + n % 0x40)]

/-- The bytes of a source-level string literal. -/
def str (s : String) : GoString := s.toList.flatMap utf8Bytes

/-- Go `strings.HasPrefix`. -/
def hasPrefix : GoString → GoString → Bool
  | _, [] => true
  | [], _ :: _ => false
  | c :: s, p :: ps => c == p && hasPrefix s ps

/-- Go `strings.Cut(s, sep)` for a one-byte separator: the text before the first
`sep`, the text after it, and whether `sep` was found. -/
def cut (sep : Byte) : GoString → GoString × GoString × Bool
  | [] => ([], [], false)
  | c :: s =>
    if c = sep then ([], s, true)
    else
      let r := cut sep s
      (c :: r.1, r.2.1, r.2.2)

/-- The pieces of `s` between occurrences of `sep` (Go `strings.Split` for a
one-byte separator). -/
def splitOn (sep : Byte) : GoString → List GoString
  | [] => [[]]
  | c :: s =>
    if c = sep then [] :: splitOn sep s
    else
      match splitOn sep s with
      | [] => [[c]]
      | seg :: segs => (c :: seg) :: segs

/-- The order `<=` of Go on strings: bytewise lexicographic order. -/
def strLe : GoString → GoString → Bool
  | [], _ => true
  | _ :: _, [] => false
  | a :: s, b :: t => a < b || (a == b && strLe s t)

/-- Go `sort.Strings`. -/
def sortStrings (l : List GoString) : List GoString :=
  l.insertionSort (fun a b => strLe a b = true)

/-- Lower-to-upper mapping of one byte, the ASCII path of `strings.ToUpper`. -/
def upperByte (c : Byte) : Byte :=
  if 97 ≤ c.val ∧ c.val ≤ 122 then Fin.ofNat (c.val - 32) else c

/-- Go `strings.ToUpper` on an ASCII string (the only use in `client.do` is on
the output of `hex.EncodeToString`). -/
def toUpper (s : GoString) : GoString := s.map upperByte

/-- Digit `n` of the table `"0123456789abcdef"`. -/
def lowerhex (n : Nat) : Byte :=
  if n < 10 then Fin.ofNat (48 + n) else Fin.ofNat (87 + n)

/-- Go `hex.EncodeToString`: two lower-case digits per byte. -/
def hexEncodeToString (s : GoString) : GoString :=
  s.flatMap (fun c => [lowerhex (c.val >>> 4), lowerhex (c.val &&& 15)])

/-! ## Errors -/

/-- A Go `error` value, identified by how it was made. -/
inductive GoError where
  /-- Result of `errors.New(msg)` or of `fmt.Errorf` with the rendered text `msg`. -/
  | errorString (msg : GoString)
  /-- Result of `fmt.Errorf("net/http: invalid method %q", method)` in `http.NewRequest`. -/
  | invalidMethod (method : GoString)
  /-- A `url.EscapeError` for the offending fragment. -/
  | escapeError (frag : GoString)
  /-- A `*url.Error`, the value `&url.Error{Op: op, URL: url, Err: err}`. -/
  | urlError (op url : GoString) (err : GoError)
  deriving DecidableEq, Repr

deriving instance DecidableEq for Except

/-- Outcome of running Go code that may panic. -/
inductive Run (α : Type) where
  | returned (a : α)
  | panicked
  deriving DecidableEq, Repr

/-! ## net/url: query escaping -/

/-- Predicate `shouldEscape(c, encodeQueryComponent)` of `net/url`: everything is
escaped but ASCII letters, digits and `-`, `_`, `.`, `~`. -/
def shouldEscape (c : Byte) : Bool :=
  if (97 ≤ c.val ∧ c.val ≤ 122) ∨ (65 ≤ c.val ∧ c.val ≤ 90) ∨ (48 ≤ c.val ∧ c.val ≤ 57) then false
  else if c = 45 ∨ c = 95 ∨ c = 46 ∨ c = 126 then false
  else true

/-- Digit `n` of the table `upperhex = "0123456789ABCDEF"`. -/
def upperhex (n : Nat) : Byte :=
  if n < 10 then Fin.ofNat (48 + n) else Fin.ofNat (55 + n)

/-- What `escape(s, encodeQueryComponent)` writes for one byte. -/
def escapeByte (c : Byte) : GoString :=
  if c = 32 then [43]
  else if shouldEscape c then [37, upperhex (c.val >>> 4), upperhex (c.val &&& 15)]
  else [c]

/-- Go `url.QueryEscape`. -/
def QueryEscape (s : GoString) : GoString := s.flatMap escapeByte

/-- Helper `ishex` of `net/url`. -/
def ishex (c : Byte) : Bool :=
  (48 ≤ c.val ∧ c.val ≤ 57) ∨ (97 ≤ c.val ∧ c.val ≤ 102) ∨ (65 ≤ c.val ∧ c.val ≤ 70)

/-- Helper `unhex` of `net/url`. -/
def unhex (c : Byte) : Nat :=
  if 48 ≤ c.val ∧ c.val ≤ 57 then c.val - 48
  else if 97 ≤ c.val ∧ c.val ≤ 102 then c.val - 97 + 10
  else if 65 ≤ c.val ∧ c.val ≤ 70 then c.val - 65 + 10
  else 0

/-- Go `url.QueryUnescape`: `%XX` becomes the byte `XX`, `+` becomes a space; a
`%` not followed by two hex digits is an `EscapeError` carrying at most three
bytes from that `%` on. -/
def QueryUnescape : GoString → Except GoError GoString
  | [] => .ok []
  | c :: s =>
    if c = 37 then
      match s with
      | a :: b :: rest =>
        if ishex a && ishex b then
          match QueryUnescape rest with
          | .ok t => .ok (Fin.ofNat (unhex a <<< 4 ||| unhex b) :: t)
          | .error e => .error e
        else .error (.escapeError [c, a, b])
      | _ => .error (.escapeError (c :: s))
    else
      match QueryUnescape s with
      | .ok t => .ok ((if c = 43 then 32 else c) :: t)
      | .error e => .error e

/-! ## net/url: Values -/

/-- Go `url.Values`, a `map[string][]string`, kept as an association list that
is read by first match; the operations below keep at most one entry per key. -/
abbrev Values := List (GoString × List GoString)

/-- The map read `v[key]`: the stored slice, `nil` for an absent key. -/
def Values.get (v : Values) (key : GoString) : List GoString :=
  (v.lookup key).getD []

/-- Removal of the entry of `key`. -/
def Values.erase (v : Values) (key : GoString) : Values :=
  v.filter (fun p => !(p.1 == key))

/-- Go `Values.Set`: `v[key] = []string{value}`. -/
def Values.Set (v : Values) (key value : GoString) : Values :=
  (key, [value]) :: v.erase key

/-- Go `Values.Add`: `v[key] = append(v[key], value)`. -/
def Values.Add (v : Values) (key value : GoString) : Values :=
  (key, v.get key ++ [value]) :: v.erase key

/-- The keys that `for k := range v` visits, each once. -/
def Values.keys (v : Values) : List GoString :=
  (v.map Prod.fst).dedup

/-- Go `Values.Encode`: keys in sorted order, for each key its values in
order, `key=value` pairs escaped and joined by `&`. -/
def Values.Encode (v : Values) : GoString :=
  (sortStrings v.keys).foldl
    (fun buf k =>
      (v.get k).foldl
        (fun buf val =>
          (if buf.length > 0 then buf ++ [38] else buf) ++ QueryEscape k ++ [61] ++ QueryEscape val)
        buf)
    []

/-- One turn of the loop of `parseQuery` in `net/url`, on the piece `key` cut
off at `&`; the state is the map and the error remembered so far.  A piece
holding `;` is rejected (Go 1.17 and later). -/
def parseQueryStep (st : Values × Option GoError) (key : GoString) : Values × Option GoError :=
  if key.contains 59 then
    (st.1, some (.errorString (str "invalid semicolon separator in query")))
  else if key = [] then st
  else
    let kv := cut 61 key
    match QueryUnescape kv.1 with
    | .error e1 => (st.1, if st.2 = none then some e1 else st.2)
    | .ok k =>
      match QueryUnescape kv.2.1 with
      | .error e1 => (st.1, if st.2 = none then some e1 else st.2)
      | .ok value => (st.1.Add k value, st.2)

/-- Go `parseQuery(m, query)`: the loop `for query != ""` cuts `query` at each
`&`; an empty piece is skipped, so it runs over the pieces of `splitOn`. -/
def parseQuery (m : Values) (query : GoString) : Values × Option GoError :=
  (splitOn 38 query).foldl parseQueryStep (m, none)

/-- Go `url.ParseQuery`. -/
def ParseQuery (query : GoString) : Values × Option GoError :=
  parseQuery [] query

/-- Go `url.Userinfo`. -/
structure Userinfo where
  username : GoString
  password : GoString
  passwordSet : Bool
  deriving DecidableEq, Repr

/-- Go `url.URL`. -/
structure URL where
  Scheme : GoString
  Opaque : GoString
  User : Option Userinfo
  Host : GoString
  Path : GoString
  RawPath : GoString
  OmitHost : Bool
  ForceQuery : Bool
  RawQuery : GoString
  Fragment : GoString
  RawFragment : GoString
  deriving DecidableEq, Repr

/-- Go `URL.Query`: `ParseQuery(u.RawQuery)` with the error dropped. -/
def URL.Query (u : URL) : Values :=
  (ParseQuery u.RawQuery).1

/-! ## net/http: headers and requests -/

/-- Table `isTokenTable` of `httpguts`: the bytes allowed in a method and in a
header field name. -/
def isToken (c : Byte) : Bool :=
  (97 ≤ c.val ∧ c.val ≤ 122) ∨ (65 ≤ c.val ∧ c.val ≤ 90) ∨ (48 ≤ c.val ∧ c.val ≤ 57) ∨
  c = 33 ∨ c = 35 ∨ c = 36 ∨ c = 37 ∨ c = 38 ∨ c = 39 ∨ c = 42 ∨ c = 43 ∨ c = 45 ∨ c = 46 ∨
  c = 94 ∨ c = 95 ∨ c = 96 ∨ c = 124 ∨ c = 126

/-- Function `validMethod` of `net/http`. -/
def validMethod (method : GoString) : Bool :=
  method.length > 0 && method.all isToken

/-- The letter-case pass of `canonicalMIMEHeaderKey`: upper case at the start
and after each `-`, lower case elsewhere. -/
def canonicalCase : Bool → GoString → GoString
  | _, [] => []
  | upper, c :: s =>
    let c1 : Byte :=
      if upper ∧ 97 ≤ c.val ∧ c.val ≤ 122 then Fin.ofNat (c.val - 32)
      else if ¬ upper ∧ 65 ≤ c.val ∧ c.val ≤ 90 then Fin.ofNat (c.val + 32)
      else c
    c1 :: canonicalCase (c1 = 45) s

/-- Go `textproto.CanonicalMIMEHeaderKey`: a key holding a byte that is not a
token byte is returned unchanged. -/
def CanonicalMIMEHeaderKey (s : GoString) : GoString :=
  if s.all isToken then canonicalCase true s else s

/-- Go `http.Header`, a `map[string][]string`. -/
abbrev Header := Values

/-- Go `Header.Add`. -/
def Header.Add (h : Header) (key value : GoString) : Header :=
  Values.Add h (CanonicalMIMEHeaderKey key) value

/-- Go `Header.Get`: the first value stored for the key, `""` if there is none. -/
def Header.Get (h : Header) (key : GoString) : GoString :=
  (Values.get h (CanonicalMIMEHeaderKey key)).headD []

/-- The fields of Go `http.Request` that `client.do` sets; `Body` is the
content of the reader handed to `http.NewRequest`. -/
structure Request where
  Method : GoString
  URL : URL
  Header : Header
  Body : GoString
  ContentLength : Nat
  Host : GoString
  deriving DecidableEq, Repr

/-- What `doTimeoutRequest` hands back on success: the status of the
`http.Response`, and the bytes and error that `ioutil.ReadAll(resp.Body)`
gives. -/
structure Response where
  StatusCode : Int
  Status : GoString
  Body : GoString
  readErr : Option GoError
  deriving DecidableEq, Repr

/-- Index of the last occurrence of `c` in `s`, `-1` if there is none
(Go `strings.LastIndex` for a one-byte needle). -/
def lastIndex (c : Byte) (s : GoString) : Int :=
  (s.enum.foldl (fun (acc : Int) p => if p.2 = c then (p.1 : Int) else acc) (-1))

/-- Function `removeEmptyPort` of `net/http`: `host:` becomes `host`. -/
def removeEmptyPort (host : GoString) : GoString :=
  if lastIndex 58 host > lastIndex 93 host then
    (if host.getLast? = some 58 then host.dropLast else host)
  else host

/-! ## encoding/json: the generic envelope -/

/-- What `json.Unmarshal` stores in an `interface{}`: `nil`, `bool`, `float64`
(kept as its IEEE-754 bits), `string`, `[]interface{}` or
`map[string]interface{}` (an association list read by first match). -/
inductive JSON where
  | null
  | bool (b : Bool)
  | number (bits : Nat)
  | string (s : GoString)
  | array (elems : List JSON)
  | object (fields : List (GoString × JSON))

/-! ## The environment -/

/-- The collaborators of the client that lie outside the repository. -/
structure Env where
  /-- Go `url.Parse`. -/
  urlParse : GoString → Except GoError URL
  /-- Go `URL.String`. -/
  urlString : URL → GoString
  /-- The digest `mac.Sum(nil)` of `hmac.New(sha256.New, key)` after
  `mac.Write(message)`. -/
  hmacSHA256 : (key message : GoString) → GoString
  /-- The round trip `c.httpClient.Do(req)` followed by `ioutil.ReadAll` of the
  response body. -/
  httpDo : Request → Except GoError Response
  /-- Whether, for a timer of the given duration, `timer.C` is what the `select`
  of `doTimeoutRequest` receives from. -/
  timerFirst : (timeout : Int) → Request → Bool
  /-- Go `json.Unmarshal(data, &v)` for `v` of type `interface{}`. -/
  jsonUnmarshal : GoString → Except GoError JSON

/-! ## client.go -/

/-- Constant `API_BASE` of `livecoin.go`. -/
def API_BASE : GoString := str "https://api.livecoin.net"

/-- Go `time.Second`, in nanoseconds. -/
def Second : Int := 1000000000

/-- The field of Go `http.Client` that the constructors read. -/
structure HttpClient where
  Timeout : Int
  deriving DecidableEq, Repr

/-- The struct `client` of `client.go`; durations are in nanoseconds. -/
structure client where
  apiKey : GoString
  apiSecret : GoString
  httpClient : HttpClient
  httpTimeout : Int
  debug : Bool
  deriving DecidableEq, Repr

/-- `NewClient` of `client.go`. -/
def NewClient (apiKey apiSecret : GoString) : client :=
  ⟨apiKey, apiSecret, ⟨0⟩, 30 * Second, false⟩

/-- `NewClientWithCustomHttpConfig` of `client.go`. -/
def NewClientWithCustomHttpConfig (apiKey apiSecret : GoString) (httpClient : HttpClient) : client :=
  let timeout := httpClient.Timeout
  let timeout := if timeout ≤ 0 then 30 * Second else timeout
  ⟨apiKey, apiSecret, httpClient, timeout, false⟩

/-- `NewClientWithCustomTimeout` of `client.go`. -/
def NewClientWithCustomTimeout (apiKey apiSecret : GoString) (timeout : Int) : client :=
  ⟨apiKey, apiSecret, ⟨0⟩, timeout, false⟩

/-- `doTimeoutRequest` of `client.go`: the round trip runs in the background;
the `select` returns its result, or the timeout error when the timer is
received from first.  The debug dumps only write to the log. -/
def client.doTimeoutRequest (env : Env) (c : client) (req : Request) : Except GoError Response :=
  if env.timerFirst c.httpTimeout req then
    .error (.errorString (str "timeout on reading data from Livecoin API"))
  else env.httpDo req

/-- Go `http.NewRequest(method, url, strings.NewReader(body))`. -/
def NewRequest (env : Env) (method url body : GoString) : Except GoError Request :=
  let method := if method = [] then str "GET" else method
  if !validMethod method then .error (.invalidMethod method)
  else
    match env.urlParse url with
    | .error e => .error e
    | .ok u =>
      let host := removeEmptyPort u.Host
      .ok { Method := method, URL := { u with Host := host }, Header := [], Body := body,
            ContentLength := body.length, Host := host }

/-- A Go `map[string]string`, an association list read by first match. -/
abbrev Payload := List (GoString × GoString)

/-- The loop `for key, value := range payload { q.Set(key, value) }`.  Go
visits the keys in no fixed order, each once; the fold visits the list from its
end, so that the first entry of a key is the one that stays. -/
def setAll (q : Values) (payload : Payload) : Values :=
  payload.foldr (fun p acc => Values.Set acc p.1 p.2) q

/-- Lines 102-107 of `client.do`: the target URL. -/
def resolveURL (ressource : GoString) : GoString :=
  if hasPrefix ressource (str "http") then ressource
  else API_BASE ++ str "/" ++ ressource

/-- Lines 108-128 of `client.do`: the final `rawurl` and `formData`. -/
def encodeParams (env : Env) (method rawurl : GoString) (payload : Payload) :
    Except GoError (GoString × GoString) :=
  if method = str "GET" then
    match env.urlParse rawurl with
    | .error e => .error e
    | .ok u =>
      let q := setAll u.Query payload
      let formData := Values.Encode q
      .ok (env.urlString { u with RawQuery := formData }, formData)
  else
    let formValues := setAll [] payload
    .ok (rawurl, Values.Encode formValues)

/-- The text of the error of line 141. -/
def missingCredentials : GoError :=
  .errorString (str "You need to set API Key and API Secret to call this method")

/-- Lines 100-154 of `client.do`: the request that is handed to
`doTimeoutRequest`, or the error returned before that. -/
def client.buildRequest (env : Env) (c : client) (method ressource : GoString) (payload : Payload)
    (authNeeded : Bool) : Except GoError Request :=
  match encodeParams env method (resolveURL ressource) payload with
  | .error e => .error e
  | .ok (rawurl, formData) =>
    match NewRequest env method rawurl formData with
    | .error e => .error e
    | .ok req =>
      let req :=
        if method = str "POST" ∨ method = str "PUT" then
          { req with Header := Header.Add req.Header (str "Content-Type")
                                 (str "application/x-www-form-urlencoded") }
        else req
      let req := { req with Header := Header.Add req.Header (str "Accept") (str "application/json") }
      if authNeeded then
        if c.apiKey.length = 0 ∨ c.apiSecret.length = 0 then .error missingCredentials
        else
          let mac := env.hmacSHA256 c.apiSecret formData
          let sig := hexEncodeToString mac
          let req := { req with Header := Header.Add req.Header (str "Api-key") c.apiKey }
          .ok { req with Header := Header.Add req.Header (str "Sign") (toUpper sig) }
      else .ok req

/-- What a call of `client.do` yields: its two results, and the requests it
handed to `doTimeoutRequest`. -/
structure DoResult where
  response : GoString
  err : Option GoError
  sent : List Request
  deriving DecidableEq, Repr

/-- `client.do` of `client.go`. -/
def client.«do» (env : Env) (c : client) (method ressource : GoString) (payload : Payload)
    (authNeeded : Bool) : DoResult :=
  match c.buildRequest env method ressource payload authNeeded with
  | .error e => ⟨[], some e, []⟩
  | .ok req =>
    match c.doTimeoutRequest env req with
    | .error e => ⟨[], some e, [req]⟩
    | .ok resp =>
      match resp.readErr with
      | some e => ⟨resp.Body, some e, [req]⟩
      | none =>
        if resp.StatusCode ≠ 200 ∧ resp.StatusCode ≠ 400 then
          ⟨resp.Body, some (.errorString resp.Status), [req]⟩
        else ⟨resp.Body, none, [req]⟩

/-! ## livecoin.go -/

/-- The field read `m[key]` of a `map[string]interface{}`. -/
def JSON.field (fields : List (GoString × JSON)) (key : GoString) : Option JSON :=
  fields.lookup key

/-- The text that `%T` prints for a decoded value. -/
def JSON.typeName : JSON → GoString
  | .null => str "<nil>"
  | .bool _ => str "bool"
  | .number _ => str "float64"
  | .string _ => str "string"
  | .array _ => str "[]interface {}"
  | .object _ => str "map[string]interface {}"

/-- `handleErr` of `livecoin.go`.  The assertion `errorMessage.(string)` panics
on a value that is not a string. -/
def handleErr (r : JSON) : Run (Option GoError) :=
  match r with
  | .object fields =>
    match JSON.field fields (str "errorMessage") with
    | none => .returned none
    | some .null => .returned none
    | some (.string s) => if s ≠ [] then .returned (some (.errorString s)) else .returned none
    | some _ => .panicked
  | .array _ => .returned none
  | v => .returned (some (.errorString (str "I don't know about type " ++ v.typeName ++ str "!\n")))

/-- What a call of `GetTrades` yields: its two results, whether the typed
decode `json.Unmarshal(r, &trades)` was run, and the requests sent. -/
structure TradesResult (Trade : Type) where
  trades : List Trade
  err : Option GoError
  typedDecode : Bool
  sent : List Request

/-- `Livecoin.GetTrades` of `livecoin.go`.  The struct `Trade` is not among the
sources: the typed decode `json.Unmarshal(r, &trades)` is the parameter
`unmarshalTrades`, giving the slice it leaves in `trades` and its error. -/
def GetTrades {Trade : Type} (env : Env) (unmarshalTrades : GoString → List Trade × Option GoError)
    (c : client) (currencyPair : GoString) : Run (TradesResult Trade) :=
  let payload : Payload := if currencyPair ≠ str "all" then [(str "currencyPair", currencyPair)] else []
  let d := c.«do» env (str "GET") (str "exchange/trades") payload true
  match d.err with
  | some e => .returned ⟨[], some e, false, d.sent⟩
  | none =>
    match env.jsonUnmarshal d.response with
    | .error e => .returned ⟨[], some e, false, d.sent⟩
    | .ok response =>
      match handleErr response with
      | .panicked => .panicked
      | .returned (some e) => .returned ⟨[], some e, false, d.sent⟩
      | .returned none =>
        let sentinel : Bool :=
          match response with
          | .object res =>
            (match JSON.field res (str "exception") with
             | some (.string s) => s == str "Data not found"
             | _ => false)
          | _ => false
        if sentinel then .returned ⟨[], none, false, d.sent⟩
        else
          let t := unmarshalTrades d.response
          .returned ⟨t.1, t.2, true, d.sent⟩

/-! ## A test environment

Stand-ins for the collaborators of `Env`, used to run the client on concrete
calls.  On the calls made below they answer as the Go library does. -/

/-- Stand-in for `url.Parse` on a URL of the shape `scheme://host/path?query`
(no user info, no escapes, no fragment).  As `url.Parse` does, it first rejects
a URL holding an ASCII control byte. -/
def plainParse (rawurl : GoString) : Except GoError URL :=
  if rawurl.any (fun c => c.val < 32 ∨ c.val = 127) then
    .error (.urlError (str "parse") rawurl
      (.errorString (str "net/url: invalid control character in URL")))
  else
    let q := cut 63 rawurl
    let s := cut 58 q.1
    let a := cut 47 (s.2.1.drop 2)
    .ok { Scheme := s.1, Opaque := [], User := none, Host := a.1,
          Path := if a.2.2 then 47 :: a.2.1 else [], RawPath := [], OmitHost := false,
          ForceQuery := false, RawQuery := q.2.1, Fragment := [], RawFragment := [] }

/-- Stand-in for `URL.String` on the URLs that `plainParse` gives. -/
def plainString (u : URL) : GoString :=
  u.Scheme ++ str "://" ++ u.Host ++ u.Path ++ (if u.RawQuery = [] then [] else 63 :: u.RawQuery)

/-- Stand-in for `json.Unmarshal` into an `interface{}`: it decodes the three
bodies used below and rejects every other input. -/
def sampleUnmarshal (data : GoString) : Except GoError JSON :=
  if data = str "\x7b\"exception\":\"Data not found\"\x7d" then
    .ok (.object [(str "exception", .string (str "Data not found"))])
  else if data = str "\x7b\"errorMessage\":\"bad param\",\"exception\":\"Data not found\"\x7d" then
    .ok (.object [(str "errorMessage", .string (str "bad param")),
                  (str "exception", .string (str "Data not found"))])
  else if data = str "[]" then .ok (.array [])
  else .error (.errorString (str "unexpected end of JSON input"))

/-- A test environment whose server answers every request with `resp`, before
the timer fires.  The digest is a stand-in: the key followed by the message. -/
def sampleEnv (resp : Response) : Env where
  urlParse := plainParse
  urlString := plainString
  hmacSHA256 := fun key message => key ++ message
  httpDo := fun _ => .ok resp
  timerFirst := fun _ _ => false
  jsonUnmarshal := sampleUnmarshal

/-- A response `200 OK` with the given body, read to its end. -/
def okResponse (body : GoString) : Response :=
  ⟨200, str "200 OK", body, none⟩

/-- A response `500 Internal Server Error` carrying a JSON body. -/
def serverError : Response :=
  ⟨500, str "500 Internal Server Error", str "[]", none⟩

/-! ## Vocabulary of the proofs -/

/-- The text `key=value` that `Values.Encode` writes for one pair. -/
def encodePair (p : GoString × GoString) : GoString :=
  QueryEscape p.1 ++ 61 :: QueryEscape p.2

/-- The key/value pairs that `Values.Encode` writes, in the order it writes them. -/
def Values.pairs (v : Values) : List (GoString × GoString) :=
  (sortStrings v.keys).flatMap (fun k => (v.get k).map (fun val => (k, val)))

/-- One write of `Values.Encode` to its buffer. -/
def encodeStep (buf : GoString) (p : GoString × GoString) : GoString :=
  (if buf.length > 0 then buf ++ [38] else buf) ++ QueryEscape p.1 ++ [61] ++ QueryEscape p.2

/-- The pairs after the first one, each written behind a `&`. -/
def encodeTail (ps : List (GoString × GoString)) : GoString :=
  ps.flatMap (fun p => 38 :: encodePair p)

/-- No key of the map is stored with an empty slice of values. -/
def Values.Clean (v : Values) : Prop :=
  ∀ k vs, v.lookup k = some vs → vs ≠ []

set_option maxRecDepth 100000

/-! ## Lemmas: splitting and escaping -/

theorem cut_append_sep (sep : Byte) (a b : GoString) (h : sep ∉ a) :
    cut sep (a ++ sep :: b) = (a, b, true) := by
  induction a with
  | nil => simp [cut]
  | cons c a ih =>
    have hc : c ≠ sep := fun e => h (by simp [e])
    have ha : sep ∉ a := fun e => h (by simp [e])
    simp [cut, hc, ih ha]

theorem splitOn_ne_nil (sep : Byte) (s : GoString) : splitOn sep s ≠ [] := by
  induction s with
  | nil => simp [splitOn]
  | cons c s ih =>
    unfold splitOn
    split
    · simp
    · split <;> simp

theorem splitOn_no_sep (sep : Byte) (a : GoString) (h : sep ∉ a) : splitOn sep a = [a] := by
  induction a with
  | nil => simp [splitOn]
  | cons c a ih =>
    have hc : c ≠ sep := fun e => h (by simp [e])
    have ha : sep ∉ a := fun e => h (by simp [e])
    simp [splitOn, hc, ih ha]

theorem splitOn_append_sep (sep : Byte) (a b : GoString) (h : sep ∉ a) :
    splitOn sep (a ++ sep :: b) = a :: splitOn sep b := by
  induction a with
  | nil => simp [splitOn]
  | cons c a ih =>
    have hc : c ≠ sep := fun e => h (by simp [e])
    have ha : sep ∉ a := fun e => h (by simp [e])
    simp [splitOn, hc, ih ha]

theorem escapeByte_cases : ∀ c : Byte,
    c = 32 ∨
    (c ≠ 32 ∧ shouldEscape c = true ∧ ishex (upperhex (c.val >>> 4)) = true ∧
      ishex (upperhex (c.val &&& 15)) = true ∧
      (Fin.ofNat (unhex (upperhex (c.val >>> 4)) <<< 4 ||| unhex (upperhex (c.val &&& 15))) : Byte) = c) ∨
    (c ≠ 32 ∧ shouldEscape c = false ∧ c ≠ 37 ∧ c ≠ 43) := by
  decide

theorem escapeByte_all : ∀ c : Byte,
    (escapeByte c).all (fun x => x != 38 && x != 61 && x != 59) = true := by
  decide

theorem escapeByte_no_separator (c : Byte) : ∀ x ∈ escapeByte c, x ≠ 38 ∧ x ≠ 61 ∧ x ≠ 59 := by
  intro x hx
  have h := escapeByte_all c
  rw [List.all_eq_true] at h
  have := h x hx
  simp at this
  tauto

theorem QueryUnescape_escapeByte (c : Byte) (t r : GoString) (h : QueryUnescape t = .ok r) :
    QueryUnescape (escapeByte c ++ t) = .ok (c :: r) := by
  rcases escapeByte_cases c with h1 | ⟨h0, h1, h2, h3, h4⟩ | ⟨h0, h1, h2, h3⟩
  · subst h1
    have e : escapeByte 32 = [43] := by decide
    rw [e, List.singleton_append, QueryUnescape.eq_def]
    simp [h]
  · have e : escapeByte c = [37, upperhex (c.val >>> 4), upperhex (c.val &&& 15)] := by
      simp [escapeByte, h0, h1]
    rw [e, QueryUnescape.eq_def]
    simp [h2, h3, h4, h]
  · have e : escapeByte c = [c] := by simp [escapeByte, h0, h1]
    rw [e, List.singleton_append, QueryUnescape.eq_def]
    simp [h2, h3, h]

theorem QueryUnescape_QueryEscape (s : GoString) : QueryUnescape (QueryEscape s) = .ok s := by
  induction s with
  | nil => simp [QueryEscape, QueryUnescape]
  | cons c s ih =>
    have : QueryEscape (c :: s) = escapeByte c ++ QueryEscape s := by simp [QueryEscape]
    rw [this]
    exact QueryUnescape_escapeByte c _ _ ih

theorem QueryEscape_no_separator (s : GoString) :
    ∀ x ∈ QueryEscape s, x ≠ 38 ∧ x ≠ 61 ∧ x ≠ 59 := by
  intro x hx
  simp only [QueryEscape, List.mem_flatMap] at hx
  obtain ⟨c, _, hc⟩ := hx
  exact escapeByte_no_separator c x hc

/-! ## Lemmas: `url.Values` -/

theorem lookup_erase (v : Values) (k k1 : GoString) :
    (Values.erase v k1).lookup k = if k = k1 then none else v.lookup k := by
  induction v with
  | nil => simp [Values.erase]
  | cons p v ih =>
    obtain ⟨a, b⟩ := p
    have ih1 : List.lookup k (List.filter (fun p => !(p.1 == k1)) v) =
        if k = k1 then none else List.lookup k v := ih
    show List.lookup k (List.filter (fun p => !(p.1 == k1)) ((a, b) :: v)) = _
    rw [List.filter_cons]
    by_cases ha : a = k1
    · have h1 : (!(a == k1)) = false := by simp [ha]
      simp only [h1, Bool.false_eq_true, if_false]
      rw [List.lookup_cons, ih1]
      by_cases hk : k = k1
      · simp [hk]
      · have h2 : (k == a) = false := by simp [ha, hk]
        simp [hk, h2]
    · have h1 : (!(a == k1)) = true := by simp [ha]
      simp only [h1, if_true]
      rw [List.lookup_cons, List.lookup_cons, ih1]
      by_cases hka : k = a
      · simp [hka, ha]
      · have h2 : (k == a) = false := by simp [hka]
        simp [h2]

theorem lookup_Set (v : Values) (k k1 value : GoString) :
    (Values.Set v k1 value).lookup k = if k = k1 then some [value] else v.lookup k := by
  by_cases hk : k = k1
  · subst hk; simp [Values.Set, List.lookup]
  · have hne : (k == k1) = false := by simpa using hk
    simp [Values.Set, List.lookup, hne, lookup_erase, hk]

theorem lookup_Add (v : Values) (k k1 value : GoString) :
    (Values.Add v k1 value).lookup k =
      if k = k1 then some (v.get k1 ++ [value]) else v.lookup k := by
  by_cases hk : k = k1
  · subst hk; simp [Values.Add, List.lookup]
  · have hne : (k == k1) = false := by simpa using hk
    simp [Values.Add, List.lookup, hne, lookup_erase, hk]

theorem get_Add (v : Values) (k k1 value : GoString) :
    (Values.Add v k1 value).get k = if k = k1 then v.get k1 ++ [value] else v.get k := by
  unfold Values.get
  rw [lookup_Add]
  by_cases hk : k = k1 <;> simp [hk, Values.get]

theorem lookup_setAll (q : Values) (payload : Payload) (k : GoString) :
    (setAll q payload).lookup k =
      match payload.lookup k with
      | some value => some [value]
      | none => q.lookup k := by
  induction payload with
  | nil => simp [setAll]
  | cons p payload ih =>
    obtain ⟨a, b⟩ := p
    have e : setAll q ((a, b) :: payload) = Values.Set (setAll q payload) a b := by
      simp [setAll]
    rw [e, lookup_Set]
    by_cases hk : k = a
    · subst hk; simp [List.lookup]
    · have hne : (k == a) = false := by simpa using hk
      simp [hk, List.lookup, hne, ih]

theorem Clean_nil : Values.Clean [] := by
  intro k vs h
  simp at h

theorem Clean_Set (v : Values) (k value : GoString) (h : v.Clean) : (Values.Set v k value).Clean := by
  intro k1 vs hl
  rw [lookup_Set] at hl
  by_cases hk : k1 = k
  · simp [hk] at hl; subst hl; simp
  · simp [hk] at hl; exact h k1 vs hl

theorem Clean_Add (v : Values) (k value : GoString) (h : v.Clean) : (Values.Add v k value).Clean := by
  intro k1 vs hl
  rw [lookup_Add] at hl
  by_cases hk : k1 = k
  · simp [hk] at hl; subst hl; simp
  · simp [hk] at hl; exact h k1 vs hl

theorem Clean_setAll (q : Values) (payload : Payload) (h : q.Clean) : (setAll q payload).Clean := by
  induction payload with
  | nil => simpa [setAll] using h
  | cons p payload ih =>
    have e : setAll q (p :: payload) = Values.Set (setAll q payload) p.1 p.2 := by
      simp [setAll]
    rw [e]
    exact Clean_Set _ _ _ ih

theorem mem_keys (v : Values) (k : GoString) : k ∈ v.keys ↔ (v.lookup k).isSome = true := by
  unfold Values.keys
  rw [List.mem_dedup]
  induction v with
  | nil => simp
  | cons p v ih =>
    obtain ⟨a, b⟩ := p
    by_cases hk : k = a
    · subst hk; simp [List.lookup]
    · have hne : (k == a) = false := by simpa using hk
      simp [List.lookup, hne, hk, ih]

/-! ## Lemmas: `Encode` followed by `ParseQuery` -/

theorem Encode_eq_foldl (v : Values) : Values.Encode v = v.pairs.foldl encodeStep [] := by
  have key : ∀ (keys : List GoString) (buf : GoString),
      keys.foldl
        (fun buf k =>
          (v.get k).foldl
            (fun buf val =>
              (if buf.length > 0 then buf ++ [38] else buf) ++ QueryEscape k ++ [61] ++
                QueryEscape val)
            buf)
        buf =
      (keys.flatMap (fun k => (v.get k).map (fun val => (k, val)))).foldl encodeStep buf := by
    intro keys
    induction keys with
    | nil => intro buf; simp
    | cons k keys ih =>
      intro buf
      rw [List.foldl_cons, ih, List.flatMap_cons, List.foldl_append, List.foldl_map]
      rfl
  exact key _ _

theorem encodePair_ne_nil (p : GoString × GoString) : encodePair p ≠ [] := by
  simp [encodePair]

theorem encodeStep_nil (p : GoString × GoString) : encodeStep [] p = encodePair p := by
  simp [encodeStep, encodePair]

theorem encodeStep_ne_nil (buf : GoString) (p : GoString × GoString) (h : buf ≠ []) :
    encodeStep buf p = buf ++ 38 :: encodePair p := by
  have hl : buf.length > 0 := List.length_pos.mpr h
  simp [encodeStep, encodePair, hl]

theorem foldl_encodeStep (ps : List (GoString × GoString)) (buf : GoString) (h : buf ≠ []) :
    ps.foldl encodeStep buf = buf ++ encodeTail ps := by
  induction ps generalizing buf with
  | nil => simp [encodeTail]
  | cons p ps ih =>
    rw [List.foldl_cons, encodeStep_ne_nil buf p h, ih _ (by simp)]
    simp [encodeTail]

theorem encodePair_no_amp (p : GoString × GoString) : (38 : Byte) ∉ encodePair p := by
  intro h
  simp only [encodePair, List.mem_append, List.mem_cons] at h
  rcases h with h | h | h
  · exact (QueryEscape_no_separator p.1 38 h).1 rfl
  · exact absurd h (by decide)
  · exact (QueryEscape_no_separator p.2 38 h).1 rfl

theorem encodePair_no_semicolon (p : GoString × GoString) : (59 : Byte) ∉ encodePair p := by
  intro h
  simp only [encodePair, List.mem_append, List.mem_cons] at h
  rcases h with h | h | h
  · exact (QueryEscape_no_separator p.1 59 h).2.2 rfl
  · exact absurd h (by decide)
  · exact (QueryEscape_no_separator p.2 59 h).2.2 rfl

theorem cut_encodePair (p : GoString × GoString) :
    cut 61 (encodePair p) = (QueryEscape p.1, QueryEscape p.2, true) :=
  cut_append_sep 61 _ _ (fun h => (QueryEscape_no_separator p.1 61 h).2.1 rfl)

theorem splitOn_encodeTail (ps : List (GoString × GoString)) (a : GoString) (h : (38 : Byte) ∉ a) :
    splitOn 38 (a ++ encodeTail ps) = a :: ps.map encodePair := by
  induction ps generalizing a with
  | nil => simpa [encodeTail] using splitOn_no_sep 38 a h
  | cons p ps ih =>
    have e : a ++ encodeTail (p :: ps) = a ++ 38 :: (encodePair p ++ encodeTail ps) := by
      simp [encodeTail]
    rw [e, splitOn_append_sep 38 a _ h, ih _ (encodePair_no_amp p)]
    simp

theorem parseQueryStep_encodePair (st : Values × Option GoError) (p : GoString × GoString) :
    parseQueryStep st (encodePair p) = (Values.Add st.1 p.1 p.2, st.2) := by
  have h1 := encodePair_no_semicolon p
  simp [parseQueryStep, h1, encodePair_ne_nil, cut_encodePair, QueryUnescape_QueryEscape]

theorem foldl_parseQueryStep (ps : List (GoString × GoString)) (st : Values × Option GoError) :
    (ps.map encodePair).foldl parseQueryStep st =
      (ps.foldl (fun m p => Values.Add m p.1 p.2) st.1, st.2) := by
  induction ps generalizing st with
  | nil => simp
  | cons p ps ih =>
    rw [List.map_cons, List.foldl_cons, parseQueryStep_encodePair, ih]
    simp

theorem ParseQuery_foldl_encodeStep (ps : List (GoString × GoString)) :
    ParseQuery (ps.foldl encodeStep []) = (ps.foldl (fun m p => Values.Add m p.1 p.2) [], none) := by
  cases ps with
  | nil => simp [ParseQuery, parseQuery, splitOn, parseQueryStep]
  | cons p ps =>
    rw [List.foldl_cons, encodeStep_nil, foldl_encodeStep _ _ (encodePair_ne_nil p)]
    unfold ParseQuery parseQuery
    rw [splitOn_encodeTail ps _ (encodePair_no_amp p), ← List.map_cons, foldl_parseQueryStep]

theorem foldl_Add_map (vs : List GoString) (k0 : GoString) (m : Values) (k : GoString) :
    (((vs.map (fun val => (k0, val))).foldl (fun m p => Values.Add m p.1 p.2) m).lookup k =
      if k = k0 ∧ vs ≠ [] then some (m.get k0 ++ vs) else m.lookup k) ∧
    (((vs.map (fun val => (k0, val))).foldl (fun m p => Values.Add m p.1 p.2) m).get k =
      if k = k0 then m.get k0 ++ vs else m.get k) := by
  induction vs generalizing m with
  | nil => by_cases hk : k = k0 <;> simp [hk]
  | cons val vs ih =>
    rw [List.map_cons, List.foldl_cons]
    obtain ⟨ih1, ih2⟩ := ih (Values.Add m k0 val)
    rw [ih1, ih2]
    simp only [get_Add, lookup_Add, if_true]
    by_cases hk : k = k0
    · subst hk
      by_cases hv : vs = [] <;> simp [hv]
    · simp [hk]

theorem lookup_foldl_Add_flatMap (g : GoString → List GoString) (keys : List GoString)
    (hnd : keys.Nodup) (m : Values) (k : GoString) :
    (((keys.flatMap (fun k1 => (g k1).map (fun val => (k1, val)))).foldl
        (fun m p => Values.Add m p.1 p.2) m).lookup k =
      if k ∈ keys ∧ g k ≠ [] then some (m.get k ++ g k) else m.lookup k) := by
  induction keys generalizing m with
  | nil => simp
  | cons k0 ks ih =>
    rw [List.flatMap_cons, List.foldl_append, ih (List.nodup_cons.mp hnd).2]
    have hk0 : k0 ∉ ks := (List.nodup_cons.mp hnd).1
    obtain ⟨h1, h2⟩ := foldl_Add_map (g k0) k0 m k
    rw [h1, h2]
    by_cases hk : k = k0
    · subst hk
      by_cases hg : g k = [] <;> simp [hk0, hg]
    · by_cases hks : k ∈ ks <;> by_cases hg : g k = [] <;> simp [hk, hks, hg]

theorem sortStrings_perm (l : List GoString) : (sortStrings l).Perm l :=
  List.perm_insertionSort _ l

theorem ParseQuery_Encode (v : Values) (hc : v.Clean) :
    (ParseQuery (Values.Encode v)).2 = none ∧
    ∀ k, (ParseQuery (Values.Encode v)).1.lookup k = v.lookup k := by
  rw [Encode_eq_foldl, ParseQuery_foldl_encodeStep]
  refine ⟨rfl, fun k => ?_⟩
  have hnd : (sortStrings v.keys).Nodup :=
    (sortStrings_perm v.keys).nodup_iff.mpr (List.nodup_dedup _)
  have hmem : k ∈ sortStrings v.keys ↔ (v.lookup k).isSome = true := by
    rw [(sortStrings_perm v.keys).mem_iff, mem_keys]
  show List.lookup k (List.foldl _ [] v.pairs) = _
  unfold Values.pairs
  rw [lookup_foldl_Add_flatMap (fun k => v.get k) _ hnd [] k]
  cases hl : v.lookup k with
  | none =>
    have : k ∉ sortStrings v.keys := by rw [hmem, hl]; simp
    simp [this]
  | some vs =>
    have hin : k ∈ sortStrings v.keys := by rw [hmem, hl]; simp
    have hne : vs ≠ [] := hc k vs hl
    simp [hin, Values.get, hl, hne]

theorem parseQueryStep_Clean (st : Values × Option GoError) (key : GoString) (h : st.1.Clean) :
    (parseQueryStep st key).1.Clean := by
  unfold parseQueryStep
  split
  · exact h
  · split
    · exact h
    · dsimp only
      split
      · exact h
      · split
        · exact h
        · exact Clean_Add _ _ _ h

theorem foldl_parseQueryStep_Clean (segs : List GoString) (st : Values × Option GoError)
    (h : st.1.Clean) : (segs.foldl parseQueryStep st).1.Clean := by
  induction segs generalizing st with
  | nil => simpa using h
  | cons s segs ih =>
    rw [List.foldl_cons]
    exact ih _ (parseQueryStep_Clean st s h)

theorem Query_Clean (u : URL) : u.Query.Clean :=
  foldl_parseQueryStep_Clean _ _ Clean_nil

theorem ParseQuery_nil : ParseQuery [] = ([], none) := by
  simp [ParseQuery, parseQuery, splitOn, parseQueryStep]

theorem Encode_setAll_ne_nil (q : Values) (payload : Payload) (hq : q.Clean) (hp : payload ≠ []) :
    Values.Encode (setAll q payload) ≠ [] := by
  intro he
  obtain ⟨_, h⟩ := ParseQuery_Encode (setAll q payload) (Clean_setAll q payload hq)
  cases payload with
  | nil => exact hp rfl
  | cons p ps =>
    have h1 := h p.1
    rw [he, ParseQuery_nil, lookup_setAll] at h1
    simp [List.lookup] at h1

/-! ## Lemmas: headers and the request -/

theorem get_Header_Add (h : Header) (key value k : GoString) :
    Values.get (Header.Add h key value) k =
      if k = CanonicalMIMEHeaderKey key then Values.get h (CanonicalMIMEHeaderKey key) ++ [value]
      else Values.get h k := by
  unfold Header.Add
  exact get_Add h k _ value

theorem canonical_ContentType :
    CanonicalMIMEHeaderKey (str "Content-Type") = str "Content-Type" := by decide

theorem canonical_Accept : CanonicalMIMEHeaderKey (str "Accept") = str "Accept" := by decide

theorem canonical_ApiKey : CanonicalMIMEHeaderKey (str "Api-key") = str "Api-Key" := by decide

theorem canonical_Sign : CanonicalMIMEHeaderKey (str "Sign") = str "Sign" := by decide

theorem NewRequest_inv (env : Env) (method url body : GoString) (req : Request)
    (h : NewRequest env method url body = .ok req) :
    ∃ u, env.urlParse url = .ok u ∧ req.URL = { u with Host := removeEmptyPort u.Host } ∧
      req.Body = body ∧ req.ContentLength = body.length ∧ req.Header = [] := by
  unfold NewRequest at h
  dsimp only at h
  by_cases hv : validMethod (if method = [] then str "GET" else method) = true
  · cases hu : env.urlParse url with
    | error e => simp [hv, hu] at h
    | ok u =>
      simp only [hv, hu, Bool.not_true, Bool.false_eq_true, if_false] at h
      injection h with h
      subst h
      exact ⟨u, rfl, rfl, rfl, rfl, rfl⟩
  · simp [hv] at h

theorem buildRequest_inv (env : Env) (c : client) (method ressource : GoString) (payload : Payload)
    (authNeeded : Bool) (req : Request)
    (h : c.buildRequest env method ressource payload authNeeded = .ok req) :
    ∃ rawurl u,
      encodeParams env method (resolveURL ressource) payload = .ok (rawurl, req.Body) ∧
      env.urlParse rawurl = .ok u ∧
      req.URL = { u with Host := removeEmptyPort u.Host } ∧
      req.ContentLength = req.Body.length ∧
      (authNeeded = true → c.apiKey ≠ [] ∧ c.apiSecret ≠ []) ∧
      req.Header =
        (let h1 : Header :=
          if method = str "POST" ∨ method = str "PUT" then
            Header.Add [] (str "Content-Type") (str "application/x-www-form-urlencoded")
          else []
         let h2 := Header.Add h1 (str "Accept") (str "application/json")
         if authNeeded = true then
           Header.Add (Header.Add h2 (str "Api-key") c.apiKey) (str "Sign")
             (toUpper (hexEncodeToString (env.hmacSHA256 c.apiSecret req.Body)))
         else h2) := by
  unfold client.buildRequest at h
  split at h
  · cases h
  · rename_i rawurl formData hE
    split at h
    · cases h
    · rename_i r0 hN
      obtain ⟨u, hu, hURL, hBody, hLen, hHdr⟩ := NewRequest_inv env method rawurl formData r0 hN
      dsimp only at h
      cases authNeeded with
      | false =>
        simp only [Bool.false_eq_true, if_false] at h
        injection h with h
        subst h
        refine ⟨rawurl, u, ?_, hu, ?_, ?_, ?_, ?_⟩
        · split <;> simp_all
        · split <;> simp_all
        · split <;> simp_all
        · simp
        · split <;> simp_all
      | true =>
        simp only [if_true] at h
        split at h
        · cases h
        · rename_i hcred
          injection h with h
          subst h
          have hk : c.apiKey ≠ [] ∧ c.apiSecret ≠ [] := by
            simpa [not_or] using hcred
          refine ⟨rawurl, u, ?_, hu, ?_, ?_, fun _ => hk, ?_⟩
          · split <;> simp_all
          · split <;> simp_all
          · split <;> simp_all
          · split <;> simp_all

theorem auth_headers (env : Env) (c : client) (method ressource : GoString) (payload : Payload)
    (req : Request) (hreq : c.buildRequest env method ressource payload true = .ok req) :
    Header.Get req.Header (str "Api-key") = c.apiKey ∧
    Header.Get req.Header (str "Sign") =
      toUpper (hexEncodeToString (env.hmacSHA256 c.apiSecret req.Body)) := by
  obtain ⟨rawurl, u, _, _, _, _, _, hH⟩ :=
    buildRequest_inv env c method ressource payload true req hreq
  have n1 : str "Api-Key" ≠ str "Sign" := by decide
  have n2 : str "Api-Key" ≠ str "Accept" := by decide
  have n3 : str "Api-Key" ≠ str "Content-Type" := by decide
  have n4 : str "Sign" ≠ str "Api-Key" := by decide
  have n5 : str "Sign" ≠ str "Accept" := by decide
  have n6 : str "Sign" ≠ str "Content-Type" := by decide
  refine ⟨?_, ?_⟩
  · rw [hH]
    by_cases hm : method = str "POST" ∨ method = str "PUT" <;>
      simp only [hm, if_true, if_false, Header.Get, get_Header_Add, canonical_ApiKey,
        canonical_Sign, canonical_Accept, canonical_ContentType, n1, n2, n3, n4, n5, n6] <;>
      simp [Values.get]
  · rw [hH]
    by_cases hm : method = str "POST" ∨ method = str "PUT" <;>
      simp only [hm, if_true, if_false, Header.Get, get_Header_Add, canonical_ApiKey,
        canonical_Sign, canonical_Accept, canonical_ContentType, n1, n2, n3, n4, n5, n6] <;>
      simp [Values.get]

/-- C1, as the code has it: when `client.do` is called with `authNeeded = true`
and the key or the secret is empty, nothing is handed to `doTimeoutRequest` and
no bytes are returned; the error is the one of `url.Parse` or `http.NewRequest`
when building the request fails, and the missing-credentials error otherwise. -/
theorem do_missing_credentials (env : Env) (c : client) (method ressource : GoString)
    (payload : Payload) (hcred : c.apiKey = [] ∨ c.apiSecret = []) :
    (c.«do» env method ressource payload true).sent = [] ∧
    (c.«do» env method ressource payload true).response = [] ∧
    (c.«do» env method ressource payload true).err =
      match encodeParams env method (resolveURL ressource) payload with
      | .error e => some e
      | .ok (rawurl, formData) =>
        match NewRequest env method rawurl formData with
        | .error e => some e
        | .ok _ => some missingCredentials := by
  have hlen : c.apiKey.length = 0 ∨ c.apiSecret.length = 0 := by
    rcases hcred with h | h <;> simp [h]
  unfold client.«do» client.buildRequest
  cases hE : encodeParams env method (resolveURL ressource) payload with
  | error e => exact ⟨rfl, rfl, rfl⟩
  | ok p =>
    obtain ⟨rawurl, formData⟩ := p
    dsimp only
    cases hN : NewRequest env method rawurl formData with
    | error e => exact ⟨rfl, rfl, rfl⟩
    | ok r0 =>
      dsimp only
      rw [if_pos rfl, if_pos hlen]
      exact ⟨rfl, rfl, rfl⟩

/-- C1, witness: a `GET` of `payment/balances` by a client without a key. -/
theorem do_missing_credentials_witness :
    ((NewClient [] (str "secret")).apiKey = [] ∨ (NewClient [] (str "secret")).apiSecret = []) ∧
    ((NewClient [] (str "secret")).«do» (sampleEnv (okResponse (str "[]"))) (str "GET")
        (str "payment/balances") [] true).sent = [] ∧
    ((NewClient [] (str "secret")).«do» (sampleEnv (okResponse (str "[]"))) (str "GET")
        (str "payment/balances") [] true).err = some missingCredentials :=
  ⟨Or.inl rfl,
   (do_missing_credentials (sampleEnv (okResponse (str "[]"))) (NewClient [] (str "secret"))
      (str "GET") (str "payment/balances") [] (Or.inl rfl)).1,
   (do_missing_credentials (sampleEnv (okResponse (str "[]"))) (NewClient [] (str "secret"))
      (str "GET") (str "payment/balances") [] (Or.inl rfl)).2.2.trans (by decide)⟩

/-- C1, as stated, fails: without credentials, a call whose method
`http.NewRequest` rejects, or whose URL `url.Parse` rejects, fails with that
error and not with the missing-credentials error. -/
theorem do_construction_error_before_credentials :
    ((NewClient [] []).«do» (sampleEnv (okResponse (str "[]"))) (str "B D")
        (str "payment/balances") [] true).err = some (.invalidMethod (str "B D")) ∧
    ((NewClient [] []).«do» (sampleEnv (okResponse (str "[]"))) (str "B D")
        (str "payment/balances") [] true).err ≠ some missingCredentials ∧
    ((NewClient [] []).«do» (sampleEnv (okResponse (str "[]"))) (str "GET")
        (str "payment/balances\n") [] true).err =
      some (.urlError (str "parse") (str "https://api.livecoin.net/payment/balances\n")
        (.errorString (str "net/url: invalid control character in URL"))) := by
  decide

/-- C2: when the request was built, `doTimeoutRequest` gave a response and its
body was read to the end, `client.do` returns the body; the error is `nil`
exactly for the status codes 200 and 400, and for any other status code it is
the error made of the status line. -/
theorem do_status_policy (env : Env) (c : client) (method ressource : GoString)
    (payload : Payload) (authNeeded : Bool) (req : Request) (resp : Response)
    (hreq : c.buildRequest env method ressource payload authNeeded = .ok req)
    (hresp : c.doTimeoutRequest env req = .ok resp)
    (hread : resp.readErr = none) :
    (c.«do» env method ressource payload authNeeded).response = resp.Body ∧
    ((c.«do» env method ressource payload authNeeded).err = none ↔
      (resp.StatusCode = 200 ∨ resp.StatusCode = 400)) ∧
    (¬ (resp.StatusCode = 200 ∨ resp.StatusCode = 400) →
      (c.«do» env method ressource payload authNeeded).err = some (.errorString resp.Status)) := by
  unfold client.«do»
  simp only [hreq, hresp, hread]
  by_cases h200 : resp.StatusCode = 200
  · simp [h200]
  · by_cases h400 : resp.StatusCode = 400
    · simp [h400]
    · simp [h200, h400]

/-- C2, witness: the public call `exchange/restrictions` answered by status 500. -/
theorem do_status_policy_witness :
    ((NewClient [] []).«do» (sampleEnv serverError) (str "GET") (str "exchange/restrictions") []
        false).response = str "[]" ∧
    ((NewClient [] []).«do» (sampleEnv serverError) (str "GET") (str "exchange/restrictions") []
        false).err = some (.errorString (str "500 Internal Server Error")) :=
  have h := do_status_policy (sampleEnv serverError) (NewClient [] []) (str "GET")
    (str "exchange/restrictions") [] false _ serverError rfl rfl rfl
  ⟨h.1, h.2.2 (by decide)⟩

/-- C6, as stated, fails: the `GET` request for `payment/balance` with the
parameter `currency=BTC` has the body `currency=BTC`, twelve bytes long, and its
signature is computed over that string. -/
theorem get_request_has_body :
    ∃ req, (NewClient (str "key") (str "secret")).buildRequest (sampleEnv (okResponse (str "[]")))
        (str "GET") (str "payment/balance") [(str "currency", str "BTC")] true = .ok req ∧
      req.Body = str "currency=BTC" ∧ req.Body ≠ [] ∧ req.ContentLength = 12 ∧
      Header.Get req.Header (str "Sign") =
        toUpper (hexEncodeToString ((sampleEnv (okResponse (str "[]"))).hmacSHA256 (str "secret")
          (str "currency=BTC"))) :=
  ⟨_, rfl, by decide, by decide, by decide, by decide⟩

/-- C6, as the code has it: the body of a `GET` request built by `client.do`
(and, when authenticated, the input of its signature) is the encoding of the
query values of the target URL overwritten by the parameters, the string that is
also installed as the raw query of the URL; it is empty when there are no
parameters and the target URL has no query, and it is not empty when there is a
parameter. -/
theorem get_body_is_query (env : Env) (c : client) (ressource : GoString) (payload : Payload)
    (authNeeded : Bool) (req : Request)
    (hreq : c.buildRequest env (str "GET") ressource payload authNeeded = .ok req) :
    ∃ u u1, env.urlParse (resolveURL ressource) = .ok u ∧
      req.Body = Values.Encode (setAll u.Query payload) ∧
      env.urlParse (env.urlString { u with RawQuery := req.Body }) = .ok u1 ∧
      req.URL = { u1 with Host := removeEmptyPort u1.Host } ∧
      req.ContentLength = req.Body.length ∧
      (authNeeded = true → Header.Get req.Header (str "Sign") =
        toUpper (hexEncodeToString (env.hmacSHA256 c.apiSecret req.Body))) ∧
      (payload = [] → u.RawQuery = [] → req.Body = []) ∧
      (payload ≠ [] → req.Body ≠ []) := by
  obtain ⟨rawurl, u1, hE, hu1, hURL, hLen, _, _⟩ :=
    buildRequest_inv env c (str "GET") ressource payload authNeeded req hreq
  unfold encodeParams at hE
  rw [if_pos rfl] at hE
  cases hu : env.urlParse (resolveURL ressource) with
  | error e => rw [hu] at hE; cases hE
  | ok u =>
    rw [hu] at hE
    dsimp only at hE
    injection hE with hE
    injection hE with hraw hbody
    refine ⟨u, u1, rfl, hbody.symm, ?_, hURL, hLen, ?_, ?_, ?_⟩
    · rw [← hbody, hraw]; exact hu1
    · intro ha
      subst ha
      exact (auth_headers env c (str "GET") ressource payload req hreq).2
    · intro hp hq
      rw [← hbody, hp]
      simp only [setAll, List.foldr_nil, URL.Query, hq, ParseQuery_nil]
      rfl
    · intro hp
      rw [← hbody]
      exact Encode_setAll_ne_nil _ _ (Query_Clean u) hp

/-- C6, witness: the authenticated `GET` of `payment/balances`, without
parameters. -/
theorem get_body_is_query_witness :
    ∃ req, (NewClient (str "key") (str "secret")).buildRequest (sampleEnv (okResponse (str "[]")))
        (str "GET") (str "payment/balances") [] true = .ok req ∧ req.Body = [] ∧
      Header.Get req.Header (str "Sign") =
        toUpper (hexEncodeToString ((sampleEnv (okResponse (str "[]"))).hmacSHA256 (str "secret") [])) :=
  have h := get_body_is_query (sampleEnv (okResponse (str "[]")))
    (NewClient (str "key") (str "secret")) (str "payment/balances") [] true _ rfl
  ⟨_, rfl, rfl, Exists.elim h (fun _ h1 => Exists.elim h1 (fun _ h2 => h2.2.2.2.2.2.1 rfl))⟩

/-- C8: for every parameter map, the query string that the `GET` branch of
`client.do` produces re-parses under `url.ParseQuery` without error; each
parameter key is then bound to the one value the map gives it, and every other
key to exactly the values that `url.ParseQuery` reads for it in the raw query
of the target URL, so that the result is exactly the parameter map when the
target URL had no query.  It holds for all byte strings, ASCII or not. -/
theorem get_query_roundtrip (env : Env) (rawurl : GoString) (payload : Payload) (u : URL)
    (hparse : env.urlParse rawurl = .ok u) :
    ∃ rawurl1 formData,
      encodeParams env (str "GET") rawurl payload = .ok (rawurl1, formData) ∧
      rawurl1 = env.urlString { u with RawQuery := formData } ∧
      formData = Values.Encode (setAll (ParseQuery u.RawQuery).1 payload) ∧
      (ParseQuery formData).2 = none ∧
      (∀ k, (ParseQuery formData).1.lookup k =
        match payload.lookup k with
        | some value => some [value]
        | none => (ParseQuery u.RawQuery).1.lookup k) ∧
      (u.RawQuery = [] →
        ∀ k, (ParseQuery formData).1.lookup k = (payload.lookup k).map (fun value => [value])) := by
  refine ⟨env.urlString { u with RawQuery := Values.Encode (setAll u.Query payload) },
    Values.Encode (setAll u.Query payload), ?_, rfl, ?_, ?_, ?_, ?_⟩
  · unfold encodeParams
    rw [if_pos rfl, hparse]
  · simp only [URL.Query]
  · exact (ParseQuery_Encode _ (Clean_setAll _ _ (Query_Clean u))).1
  · intro k
    rw [(ParseQuery_Encode _ (Clean_setAll _ _ (Query_Clean u))).2 k, lookup_setAll]
    cases payload.lookup k with
    | some value => rfl
    | none => simp only [URL.Query]
  · intro hq k
    rw [(ParseQuery_Encode _ (Clean_setAll _ _ (Query_Clean u))).2 k, lookup_setAll]
    have : u.Query = [] := by simp only [URL.Query, hq, ParseQuery_nil]
    rw [this]
    cases payload.lookup k <;> rfl

/-- C8, witness: the parameter `currency=A B&C` on a target whose URL already
has the query `keep=1&currency=old`: the new query is
`currency=A+B%26C&keep=1`, in which `currency` is overwritten and `keep` is
kept; and the same parameter on the target `payment/balance`, whose URL has no
query. -/
theorem get_query_roundtrip_witness :
    (∃ rawurl1 formData,
      encodeParams (sampleEnv (okResponse (str "[]"))) (str "GET")
        (resolveURL (str "http://example.com/x?keep=1&currency=old"))
        [(str "currency", str "A B&C")] = .ok (rawurl1, formData) ∧
      rawurl1 = str "http://example.com/x?currency=A+B%26C&keep=1" ∧
      (ParseQuery formData).2 = none ∧
      (ParseQuery formData).1.lookup (str "currency") = some [str "A B&C"] ∧
      (ParseQuery formData).1.lookup (str "keep") = some [str "1"] ∧
      (ParseQuery formData).1.lookup (str "other") = none) ∧
    (∃ rawurl1 formData,
      encodeParams (sampleEnv (okResponse (str "[]"))) (str "GET")
        (resolveURL (str "payment/balance")) [(str "currency", str "A B&C")] =
          .ok (rawurl1, formData) ∧
      (ParseQuery formData).2 = none ∧
      (ParseQuery formData).1.lookup (str "currency") = some [str "A B&C"] ∧
      (ParseQuery formData).1.lookup (str "other") = none) :=
  by
  refine ⟨?_, ?_⟩
  · obtain ⟨r, f, h1, h2, hf, h3, h4, _⟩ :=
      get_query_roundtrip (sampleEnv (okResponse (str "[]")))
        (resolveURL (str "http://example.com/x?keep=1&currency=old"))
        [(str "currency", str "A B&C")] _ rfl
    have hfl : f = str "currency=A+B%26C&keep=1" := hf.trans (by decide)
    subst hfl
    exact ⟨r, _, h1, h2.trans (by decide), h3, (h4 (str "currency")).trans (by decide),
      (h4 (str "keep")).trans (by decide), (h4 (str "other")).trans (by decide)⟩
  · obtain ⟨r, f, h1, _, _, h3, _, h5⟩ :=
      get_query_roundtrip (sampleEnv (okResponse (str "[]")))
        (resolveURL (str "payment/balance")) [(str "currency", str "A B&C")] _ rfl
    exact ⟨r, f, h1, h3, (h5 rfl (str "currency")).trans (by decide),
      (h5 rfl (str "other")).trans (by decide)⟩

/-- C9, as the code has it: a request that `client.do` builds for the method
`POST` or `PUT` has as body the form encoding of the parameter map, which parses
back to exactly the pairs of the map; its URL is the parse of the resolved
target URL with an empty port removed from the host, as `http.NewRequest` does,
and nothing else changed (the query already in the resource included), so that
it is the resolved target URL itself when the host has no empty port; and it
carries the header `Content-Type: application/x-www-form-urlencoded`. -/
theorem post_put_request (env : Env) (c : client) (method ressource : GoString)
    (payload : Payload) (authNeeded : Bool) (req : Request)
    (hm : method = str "POST" ∨ method = str "PUT")
    (hreq : c.buildRequest env method ressource payload authNeeded = .ok req) :
    req.Body = Values.Encode (setAll [] payload) ∧
    (ParseQuery req.Body).2 = none ∧
    (∀ k, (ParseQuery req.Body).1.lookup k = (payload.lookup k).map (fun value => [value])) ∧
    (∃ u, env.urlParse (resolveURL ressource) = .ok u ∧
      req.URL = { u with Host := removeEmptyPort u.Host } ∧
      req.URL.RawQuery = u.RawQuery ∧
      (removeEmptyPort u.Host = u.Host → req.URL = u)) ∧
    Header.Get req.Header (str "Content-Type") = str "application/x-www-form-urlencoded" := by
  obtain ⟨rawurl, u, hE, hu, hURL, _, _, hH⟩ :=
    buildRequest_inv env c method ressource payload authNeeded req hreq
  have hne : method ≠ str "GET" := by
    rcases hm with h | h <;> rw [h] <;> decide
  unfold encodeParams at hE
  rw [if_neg hne] at hE
  injection hE with hE
  injection hE with hraw hbody
  have hb : req.Body = Values.Encode (setAll [] payload) := hbody.symm
  have hp := ParseQuery_Encode (setAll [] payload) (Clean_setAll [] payload Clean_nil)
  refine ⟨hb, ?_, ?_, ⟨u, ?_, hURL, ?_, ?_⟩, ?_⟩
  · rw [hb]; exact hp.1
  · intro k
    rw [hb, hp.2 k, lookup_setAll]
    cases payload.lookup k <;> rfl
  · rw [hraw]; exact hu
  · rw [hURL]
  · intro hhost
    rw [hURL, hhost]
  · have n1 : str "Content-Type" ≠ str "Sign" := by decide
    have n2 : str "Content-Type" ≠ str "Accept" := by decide
    have n3 : str "Content-Type" ≠ str "Api-Key" := by decide
    rw [hH]
    cases authNeeded <;>
      simp only [hm, if_true, if_false, Header.Get, get_Header_Add, canonical_ApiKey,
        canonical_Sign, canonical_Accept, canonical_ContentType, n1, n2, n3,
        Bool.false_eq_true] <;>
      simp [Values.get]

/-- C9, witness: the authenticated `POST` of `exchange/cancellimit`. -/
theorem post_put_request_witness :
    ∃ req, (NewClient (str "key") (str "secret")).buildRequest (sampleEnv (okResponse (str "[]")))
        (str "POST") (str "exchange/cancellimit")
        [(str "orderId", str "7"), (str "currencyPair", str "BTC/USD")] true = .ok req ∧
      req.Body = str "currencyPair=BTC%2FUSD&orderId=7" ∧
      (ParseQuery req.Body).1.lookup (str "currencyPair") = some [str "BTC/USD"] ∧
      (sampleEnv (okResponse (str "[]"))).urlParse
        (str "https://api.livecoin.net/exchange/cancellimit") = .ok req.URL ∧
      Header.Get req.Header (str "Content-Type") = str "application/x-www-form-urlencoded" :=
  have h := post_put_request (sampleEnv (okResponse (str "[]")))
    (NewClient (str "key") (str "secret")) (str "POST") (str "exchange/cancellimit")
    [(str "orderId", str "7"), (str "currencyPair", str "BTC/USD")] true _ (Or.inl rfl) rfl
  ⟨_, rfl, h.1.trans (by decide), (h.2.2.1 (str "currencyPair")).trans (by decide), rfl,
    h.2.2.2.2⟩

/-- C9, as stated, fails: for the `POST` of `http://example.com:/x?keep=1` the
host of the resolved target URL is `example.com:` and the host of the request
URL is `example.com`, so the request URL reads `http://example.com/x?keep=1`
and is not the resolved target URL; the query `keep=1` is unchanged. -/
theorem post_request_url_without_empty_port :
    ∃ req u, (NewClient [] []).buildRequest (sampleEnv (okResponse (str "[]"))) (str "POST")
        (str "http://example.com:/x?keep=1") [(str "a", str "1")] false = .ok req ∧
      (sampleEnv (okResponse (str "[]"))).urlParse (resolveURL (str "http://example.com:/x?keep=1"))
        = .ok u ∧
      u.Host = str "example.com:" ∧ req.URL.Host = str "example.com" ∧ req.URL ≠ u ∧
      req.URL.RawQuery = str "keep=1" ∧
      (sampleEnv (okResponse (str "[]"))).urlString req.URL = str "http://example.com/x?keep=1" ∧
      (sampleEnv (okResponse (str "[]"))).urlString req.URL ≠
        resolveURL (str "http://example.com:/x?keep=1") :=
  ⟨_, _, rfl, rfl, by decide, by decide, by decide, by decide, by decide, by decide⟩

/-! ## The constructors -/

/-- C7 at the failing input: `NewClientWithCustomTimeout` with the timeout 0
yields a client whose `httpTimeout` is 0, not 30 seconds; so it does with a
negative timeout.  `NewClientWithCustomHttpConfig` replaces both by 30 seconds. -/
theorem NewClientWithCustomTimeout_keeps_nonpositive :
    (NewClientWithCustomTimeout (str "key") (str "secret") 0).httpTimeout = 0 ∧
    (NewClientWithCustomTimeout (str "key") (str "secret") 0).httpTimeout ≠ 30 * Second ∧
    (NewClientWithCustomTimeout (str "key") (str "secret") (-5)).httpTimeout = -5 ∧
    (NewClientWithCustomHttpConfig (str "key") (str "secret") ⟨0⟩).httpTimeout = 30 * Second ∧
    (NewClientWithCustomHttpConfig (str "key") (str "secret") ⟨-5⟩).httpTimeout = 30 * Second := by
  decide

/-! ## The envelope probe -/

/-- C3: `handleErr` returns the error whose message is the `errorMessage` field
for a mapping in which that field is a non-empty string, `nil` for every
sequence, and an error for `null`, every boolean, every number and every
string. -/
theorem handleErr_classifies (fields : List (GoString × JSON)) (s : GoString)
    (elems : List JSON) (b : Bool) (bits : Nat) (t : GoString)
    (hfield : JSON.field fields (str "errorMessage") = some (.string s)) (hs : s ≠ []) :
    handleErr (.object fields) = .returned (some (.errorString s)) ∧
    handleErr (.array elems) = .returned none ∧
    handleErr .null = .returned (some (.errorString (str "I don't know about type <nil>!\n"))) ∧
    handleErr (.bool b) = .returned (some (.errorString (str "I don't know about type bool!\n"))) ∧
    handleErr (.number bits) =
      .returned (some (.errorString (str "I don't know about type float64!\n"))) ∧
    handleErr (.string t) =
      .returned (some (.errorString (str "I don't know about type string!\n"))) := by
  refine ⟨?_, rfl, ?_, ?_, ?_, ?_⟩
  · simp only [handleErr, hfield]
    simp [hs]
  · decide
  · simp only [handleErr, JSON.typeName]; decide
  · simp only [handleErr, JSON.typeName]; decide
  · simp only [handleErr, JSON.typeName]; decide

/-- C3, witness: the envelope `{"errorMessage":"bad param"}`. -/
theorem handleErr_classifies_witness :
    handleErr (.object [(str "errorMessage", .string (str "bad param"))]) =
      .returned (some (.errorString (str "bad param"))) :=
  (handleErr_classifies [(str "errorMessage", .string (str "bad param"))] (str "bad param") []
    true 0 [] rfl (by decide)).1

/-- C10 at the failing input: on the envelope `{"errorMessage":1}` the
assertion `errorMessage.(string)` of `handleErr` panics; so it does when the
field is a boolean, an array or an object. -/
theorem handleErr_panics_on_non_string_errorMessage :
    handleErr (.object [(str "errorMessage", .number 0x3FF0000000000000)]) = .panicked ∧
    handleErr (.object [(str "errorMessage", .bool false)]) = .panicked ∧
    handleErr (.object [(str "errorMessage", .array [])]) = .panicked ∧
    handleErr (.object [(str "errorMessage", .object [])]) = .panicked := by
  decide

/-- C4, as the code has it: when `client.do` returns a body without error, the
body decodes to a mapping whose `exception` field is the string
`"Data not found"`, and the `errorMessage` field of the mapping is absent, null
or the empty string, `GetTrades` returns an empty trade sequence and a `nil`
error without running the typed decode. -/
theorem GetTrades_data_not_found {Trade : Type} (env : Env)
    (unmarshalTrades : GoString → List Trade × Option GoError) (c : client)
    (currencyPair : GoString) (res : List (GoString × JSON))
    (hdo : (c.«do» env (str "GET") (str "exchange/trades")
      (if currencyPair ≠ str "all" then [(str "currencyPair", currencyPair)] else []) true).err
        = none)
    (hjson : env.jsonUnmarshal (c.«do» env (str "GET") (str "exchange/trades")
      (if currencyPair ≠ str "all" then [(str "currencyPair", currencyPair)] else []) true).response
        = .ok (.object res))
    (hexc : JSON.field res (str "exception") = some (.string (str "Data not found")))
    (hmsg : JSON.field res (str "errorMessage") = none ∨
      JSON.field res (str "errorMessage") = some .null ∨
      JSON.field res (str "errorMessage") = some (.string [])) :
    ∃ r, GetTrades env unmarshalTrades c currencyPair = .returned r ∧
      r.trades = [] ∧ r.err = none ∧ r.typedDecode = false := by
  have hh : handleErr (.object res) = .returned none := by
    rcases hmsg with h | h | h <;> simp [handleErr, h]
  unfold GetTrades
  simp only [hdo, hjson, hh, hexc]
  exact ⟨_, rfl, rfl, rfl, rfl⟩

/-- C4, witness: the trade history of all pairs, answered by status 200 with the
body `{"exception":"Data not found"}`. -/
theorem GetTrades_data_not_found_witness :
    ∃ r, GetTrades (sampleEnv (okResponse (str "\x7b\"exception\":\"Data not found\"\x7d")))
        (fun _ => (([] : List Unit), none)) (NewClient (str "key") (str "secret")) (str "all")
        = .returned r ∧ r.trades = [] ∧ r.err = none ∧ r.typedDecode = false :=
  GetTrades_data_not_found (sampleEnv (okResponse (str "\x7b\"exception\":\"Data not found\"\x7d")))
    (fun _ => (([] : List Unit), none)) (NewClient (str "key") (str "secret")) (str "all")
    [(str "exception", .string (str "Data not found"))] rfl rfl rfl (Or.inl rfl)

/-- C4, as stated, fails: on the body
`{"errorMessage":"bad param","exception":"Data not found"}`, returned with
status 200, `GetTrades` returns the error `bad param`. -/
theorem GetTrades_errorMessage_before_sentinel :
    ∃ r, GetTrades
        (sampleEnv (okResponse
          (str "\x7b\"errorMessage\":\"bad param\",\"exception\":\"Data not found\"\x7d")))
        (fun _ => (([] : List Unit), none)) (NewClient (str "key") (str "secret")) (str "all")
        = .returned r ∧ r.err = some (.errorString (str "bad param")) ∧ r.err ≠ none :=
  ⟨_, rfl, rfl, by decide⟩

end Livecoin
